import Mathlib

/-!
Shallow embedding of the micro_lang pipeline: lexer (src/lexer.rs), parser
(src/parser.rs), semantic analyzer and symbol table (src/semantic_analyzer.rs),
bytecode compiler (src/interpreter.rs) and stack-machine VM (src/vm.rs).

Modelling conventions:
* Rust f64 values are modelled by ℚ.  Every arithmetic computation appearing in
  the claims (small integer arithmetic, exact divisions such as 20/4 and 15/5,
  and the comparison with 0.0 in the Divide instruction) is exact in f64, so ℚ
  is a faithful model there.  The one place the models differ is the value of a
  division by zero (f64 yields inf, ℚ yields 0); the theorems about that case
  only assert whether the VM faults, never the resulting value.
* Rust panics (fatal faults) are modelled by Option/Except error results.
* Mutable state is threaded explicitly.  The lexer's (input, position,
  current_char) triple is represented by the list of characters not yet
  consumed, whose head is current_char.
* Rust's char::is_numeric / is_alphabetic / is_whitespace are modelled by
  Char.isDigit / Char.isAlpha / Char.isWhitespace; they agree on all ASCII
  source text, which is all the claims exercise.
-/

namespace MicroLang

/-- Values computed by the language: Rust f64, modelled by ℚ (see header). -/
abbrev Value : Type := ℚ

/-- Tokens, from the Token enum in src/lexer.rs. -/
inductive Token : Type
  | Number (x : Value)
  | Identifier (name : String)
  | Plus
  | Minus
  | Divide
  | Multiply
  | Assign
  | LParen
  | RParen
  | Semi
  | EoF
  deriving DecidableEq, Repr

/-- Lexer.skip_whitespace: drop leading whitespace characters. -/
def skipWhitespace : List Char → List Char
  | [] => []
  | c :: cs => if c.isWhitespace then skipWhitespace cs else c :: cs

/-- The loop of Lexer.read_number: accumulate digits with at most one decimal
point; a second decimal point (or any other character) ends the run and is left
unconsumed for the next token. -/
def readNumberGo (encounteredDecimal : Bool) (acc : List Char) :
    List Char → List Char × List Char
  | [] => (acc, [])
  | c :: cs =>
    if c.isDigit then
      readNumberGo encounteredDecimal (acc ++ [c]) cs
    else if c = '.' then
      if encounteredDecimal then (acc, c :: cs)
      else readNumberGo true (acc ++ [c]) cs
    else (acc, c :: cs)

/-- Lexer.read_number, before the final string-to-f64 parse. -/
def readNumber (cs : List Char) : List Char × List Char :=
  readNumberGo false [] cs

/-- Digit run to a natural number (the usual base-10 fold). -/
def digitsToNat (l : List Char) : Nat :=
  l.foldl (fun n c => 10 * n + (c.toNat - 48)) 0

/-- The string-to-number parse at the end of Lexer.read_number
(result.parse with unwrap_or 0.0).  The accumulated run is always
nonempty and consists of digits with at most one decimal point; the only such
run the f64 parse rejects is the bare ".", which unwrap_or maps to 0.
The value int.frac equals (int * 10 ^ len frac + frac) / 10 ^ len frac; it is
built with mkRat so that it evaluates inside the kernel. -/
def parseDecimal (cs : List Char) : Value :=
  let intPart := cs.takeWhile (fun c => c ≠ '.')
  let rest := cs.dropWhile (fun c => c ≠ '.')
  let fracPart := rest.drop 1
  if intPart = [] ∧ fracPart = [] then 0
  else mkRat (digitsToNat intPart * 10 ^ fracPart.length + digitsToNat fracPart)
    (10 ^ fracPart.length)

/-- The loop of Lexer.read_identifier: first character must be alphabetic or an
underscore, later characters may also be digits. -/
def readIdentifierGo (firstIter : Bool) (acc : List Char) :
    List Char → List Char × List Char
  | [] => (acc, [])
  | c :: cs =>
    if c.isAlpha ∨ (c.isDigit ∧ ¬firstIter) ∨ c = '_' then
      readIdentifierGo false (acc ++ [c]) cs
    else (acc, c :: cs)

/-- Lexer.read_identifier. -/
def readIdentifier (cs : List Char) : List Char × List Char :=
  readIdentifierGo true [] cs

/-- Lexer.match_plain_token. -/
def matchPlainToken : Char → Option Token
  | '+' => some Token.Plus
  | '-' => some Token.Minus
  | '*' => some Token.Multiply
  | '/' => some Token.Divide
  | '=' => some Token.Assign
  | '(' => some Token.LParen
  | ')' => some Token.RParen
  | ';' => some Token.Semi
  | _ => none

/-- Lexer.next_token, returning the token and the remaining input.  The
malformed-run panics in read_number / read_identifier are unreachable from this
dispatch (the first character always qualifies for the run), so the function is
total.  The catch-all arm returns EoF without consuming, matching the Rust
match. -/
def nextToken (input : List Char) : Token × List Char :=
  match skipWhitespace input with
  | [] => (Token.EoF, [])
  | c :: rest =>
    match matchPlainToken c with
    | some t => (t, rest)
    | none =>
      if c.isDigit ∨ c = '.' then
        let (s, r) := readNumber (c :: rest)
        (Token.Number (parseDecimal s), r)
      else if c.isAlphanum ∨ c = '_' then
        let (s, r) := readIdentifier (c :: rest)
        (Token.Identifier (String.mk s), r)
      else (Token.EoF, c :: rest)

/-- Binary operators, from the BinaryOperator enum in src/ast.rs. -/
inductive BinaryOperator : Type
  | Add
  | Subtract
  | Multiply
  | Divide
  deriving DecidableEq, Repr

/-- AST nodes, from the ASTNode enum in src/ast.rs. -/
inductive ASTNode : Type
  | Number (x : Value)
  | Identifier (name : String)
  | BinaryOp (left : ASTNode) (op : BinaryOperator) (right : ASTNode)
  | Assignment (varName : String) (value : ASTNode)
  | Program (statements : List ASTNode)
  deriving Repr

/-- ast.rs token_to_binary_op. -/
def tokenToBinaryOp : Token → Except String BinaryOperator
  | Token.Plus => Except.ok BinaryOperator.Add
  | Token.Minus => Except.ok BinaryOperator.Subtract
  | Token.Multiply => Except.ok BinaryOperator.Multiply
  | Token.Divide => Except.ok BinaryOperator.Divide
  | _ => Except.error "Token was not a binary operator"

/-- Parser state: the lexer's remaining input plus the one-token lookahead
(Parser.current_token). -/
structure PState : Type where
  rest : List Char
  cur : Token
  deriving DecidableEq, Repr

/-- The result of a parsing function: the Rust methods mutate the parser and
return a Result, so the embedding returns the Result together with the state
the parser was left in (also on error - Rust keeps the consumed tokens). -/
abbrev PRes (α : Type) : Type := Except String α × PState

/-- Parser.new: prime the lookahead with the first token. -/
def initParserState (input : List Char) : PState :=
  let (t, r) := nextToken input
  ⟨r, t⟩

/-- Parser.advance. -/
def advanceP (s : PState) : PState :=
  let (t, r) := nextToken s.rest
  ⟨r, t⟩

/-- Parser.expect_number_token (does not advance on mismatch). -/
def expectNumberToken (s : PState) : PRes Token :=
  match s.cur with
  | Token.Number x => (Except.ok (Token.Number x), advanceP s)
  | _ => (Except.error "Token was expected to be a Number!", s)

/-- Parser.expect_identifier_token (does not advance on mismatch). -/
def expectIdentifierToken (s : PState) : PRes Token :=
  match s.cur with
  | Token.Identifier x => (Except.ok (Token.Identifier x), advanceP s)
  | _ => (Except.error "Token was expected to be an Identifier!", s)

/-- Parser.expect_identifier_or_number_token. -/
def expectIdentifierOrNumberToken (s : PState) : PRes Token :=
  match s.cur with
  | Token.Identifier _ => expectIdentifierToken s
  | Token.Number _ => expectNumberToken s
  | _ => (Except.error "Token was neither Number nor Identifier!", s)

/-- Parser.expect_operator. -/
def expectOperator (s : PState) : PRes Token :=
  match s.cur with
  | Token.Plus => (Except.ok Token.Plus, advanceP s)
  | Token.Minus => (Except.ok Token.Minus, advanceP s)
  | Token.Multiply => (Except.ok Token.Multiply, advanceP s)
  | Token.Divide => (Except.ok Token.Divide, advanceP s)
  | _ => (Except.error "Expected operator", s)

/-- Parser.expect_token. -/
def expectToken (expected : Token) (s : PState) : PRes Token :=
  if s.cur = expected then (Except.ok expected, advanceP s)
  else (Except.error "Token did not match expected", s)

mutual

/-- Parser.parse_primary.  The recursion of the Rust parser is embedded with a
fuel parameter; running out of fuel is reported as a parse error, and every
concrete run below is supplied enough fuel never to hit it. -/
def parsePrimary : Nat → PState → PRes ASTNode
  | 0, s => (Except.error "out of fuel", s)
  | fuel + 1, s =>
    if s.cur = Token.LParen then
      match parseExpression fuel (advanceP s) with
      | (Except.ok term, s1) =>
        match expectToken Token.RParen s1 with
        | (Except.ok _, s2) => (Except.ok term, s2)
        | (Except.error e, s2) => (Except.error e, s2)
      | (Except.error e, s1) => (Except.error e, s1)
    else
      match expectIdentifierOrNumberToken s with
      | (Except.ok (Token.Identifier name), s1) =>
        (Except.ok (ASTNode.Identifier name), s1)
      | (Except.ok (Token.Number val), s1) => (Except.ok (ASTNode.Number val), s1)
      | (Except.ok _, s1) => (Except.error "parse_primary: unreachable panic", s1)
      | (Except.error e, s1) => (Except.error e, s1)

/-- The while loop of Parser.parse_factor: extend the chain while the lookahead
is * or /.  When parse_primary fails after an operator, the partial left
expression is returned instead of the error (silent truncation). -/
def parseFactorGo : Nat → ASTNode → PState → PRes ASTNode
  | 0, _, s => (Except.error "out of fuel", s)
  | fuel + 1, left, s =>
    if s.cur = Token.Multiply ∨ s.cur = Token.Divide then
      match expectOperator s with
      | (Except.ok opToken, s1) =>
        match parsePrimary fuel s1 with
        | (Except.ok right, s2) =>
          match tokenToBinaryOp opToken with
          | Except.ok op => parseFactorGo fuel (ASTNode.BinaryOp left op right) s2
          | Except.error e => (Except.error e, s2)
        | (Except.error _, s2) => (Except.ok left, s2)
      | (Except.error e, s1) => (Except.error e, s1)
    else (Except.ok left, s)

/-- Parser.parse_factor. -/
def parseFactor : Nat → PState → PRes ASTNode
  | 0, s => (Except.error "out of fuel", s)
  | fuel + 1, s =>
    match parsePrimary fuel s with
    | (Except.ok left, s1) => parseFactorGo fuel left s1
    | (Except.error e, s1) => (Except.error e, s1)

/-- The while loop of Parser.parse_term, with the same silent truncation when
parse_factor fails after an operator. -/
def parseTermGo : Nat → ASTNode → PState → PRes ASTNode
  | 0, _, s => (Except.error "out of fuel", s)
  | fuel + 1, left, s =>
    if s.cur = Token.Plus ∨ s.cur = Token.Minus then
      match expectOperator s with
      | (Except.ok opToken, s1) =>
        match parseFactor fuel s1 with
        | (Except.ok right, s2) =>
          match tokenToBinaryOp opToken with
          | Except.ok op => parseTermGo fuel (ASTNode.BinaryOp left op right) s2
          | Except.error e => (Except.error e, s2)
        | (Except.error _, s2) => (Except.ok left, s2)
      | (Except.error e, s1) => (Except.error e, s1)
    else (Except.ok left, s)

/-- Parser.parse_term. -/
def parseTerm : Nat → PState → PRes ASTNode
  | 0, s => (Except.error "out of fuel", s)
  | fuel + 1, s =>
    match parseFactor fuel s with
    | (Except.ok left, s1) => parseTermGo fuel left s1
    | (Except.error e, s1) => (Except.error e, s1)

/-- Parser.parse_expression. -/
def parseExpression : Nat → PState → PRes ASTNode
  | 0, s => (Except.error "out of fuel", s)
  | fuel + 1, s => parseTerm fuel s

end

/-- Parser.parse_assignment. -/
def parseAssignment (fuel : Nat) (s : PState) : PRes ASTNode :=
  match expectIdentifierToken s with
  | (Except.ok (Token.Identifier ident), s1) =>
    (match expectToken Token.Assign s1 with
     | (Except.ok _, s2) =>
       (match parseExpression fuel s2 with
        | (Except.ok expr, s3) =>
          (match expectToken Token.Semi s3 with
           | (Except.ok _, s4) => (Except.ok (ASTNode.Assignment ident expr), s4)
           | (Except.error e, s4) => (Except.error e, s4))
        | (Except.error e, s3) => (Except.error e, s3))
     | (Except.error e, s2) => (Except.error e, s2))
  | (Except.ok _, s1) => (Except.error "parse_assignment: unreachable panic", s1)
  | (Except.error e, s1) => (Except.error e, s1)

/-- Parser.parse_statement. -/
def parseStatement (fuel : Nat) (s : PState) : PRes ASTNode :=
  parseAssignment fuel s

/-- The while loop of Parser.parse_program, with its own fuel bounding the
number of statements. -/
def parseProgramGo : Nat → Nat → List ASTNode → PState → PRes ASTNode
  | 0, _, _, s => (Except.error "out of fuel", s)
  | stmtFuel + 1, exprFuel, acc, s =>
    if s.cur = Token.EoF then (Except.ok (ASTNode.Program acc), s)
    else
      match parseStatement exprFuel s with
      | (Except.ok stmt, s1) => parseProgramGo stmtFuel exprFuel (acc ++ [stmt]) s1
      | (Except.error e, s1) => (Except.error e, s1)

/-- Parser.parse_program on a source string: build the parser from a lexer over
the input, then run the statement loop.  The fuel is generous enough for any
input of this length (each fuel unit of the expression parser is only consumed
together with lookahead progress). -/
def parseProgram (input : String) : Except String ASTNode :=
  let cs := input.toList
  (parseProgramGo (cs.length + 1) (cs.length + 16) [] (initParserState cs)).1

/-- Bytecode instructions, from the Instruction enum in src/interpreter.rs. -/
inductive Instruction : Type
  | LoadConstant (x : Value)
  | LoadVariable (name : String)
  | StoreVariable (name : String)
  | Add
  | Subtract
  | Divide
  | Multiply
  | Stop
  deriving DecidableEq, Repr

/-- Interpreter.binary_op_to_instruction. -/
def binaryOpToInstruction : BinaryOperator → Instruction
  | BinaryOperator.Add => Instruction.Add
  | BinaryOperator.Subtract => Instruction.Subtract
  | BinaryOperator.Multiply => Instruction.Multiply
  | BinaryOperator.Divide => Instruction.Divide

mutual

/-- Interpreter.visit_node: the list of instructions the visit appends to
self.instructions (post-order emission: children first, then the node's own
instruction; Program emits each statement in order and nothing of its own). -/
def visitNode : ASTNode → List Instruction
  | ASTNode.Number x => [Instruction.LoadConstant x]
  | ASTNode.Identifier x => [Instruction.LoadVariable x]
  | ASTNode.BinaryOp left op right =>
    visitNode left ++ visitNode right ++ [binaryOpToInstruction op]
  | ASTNode.Assignment v value => visitNode value ++ [Instruction.StoreVariable v]
  | ASTNode.Program statements => visitNodeList statements

/-- The for loop in the Program arm of Interpreter.visit_node. -/
def visitNodeList : List ASTNode → List Instruction
  | [] => []
  | n :: rest => visitNode n ++ visitNodeList rest

end

/-- Interpreter.generate_instructions: clear, visit the AST, then append Stop.
There is no error path. -/
def generateInstructions (program : ASTNode) : List Instruction :=
  visitNode program ++ [Instruction.Stop]

/-- The Type enum of src/semantic_analyzer.rs (named Ty here since Type is a
Lean keyword). -/
inductive Ty : Type
  | Integer
  | Function
  deriving DecidableEq, Repr

/-- Symbols stored in the symbol table (src/semantic_analyzer.rs). -/
structure Symbol : Type where
  name : String
  symbol_type : Ty
  scope_level : Nat
  deriving DecidableEq, Repr

/-- One scope: the Rust HashMap from names to symbols, modelled as an
association list whose keys stay unique (entries are only added when the key
is absent). -/
abbrev Scope : Type := List (String × Symbol)

/-- The scope stack of src/semantic_analyzer.rs. -/
structure SymbolTable : Type where
  scopes : List Scope
  current_scope : Nat
  deriving DecidableEq, Repr

/-- SymbolTable::new: one empty scope, index 0. -/
def symbolTableNew : SymbolTable := ⟨[[]], 0⟩

/-- The while loop of SymbolTable::enter_scope pushes one empty scope while
the length is at most the (already incremented) current index; its effect is
appending current + 1 - length empty scopes. -/
def padScopes (scopes : List Scope) (cur : Nat) : List Scope :=
  scopes ++ List.replicate (cur + 1 - scopes.length) []

/-- SymbolTable::enter_scope. -/
def enterScope (st : SymbolTable) : SymbolTable :=
  ⟨padScopes st.scopes (st.current_scope + 1), st.current_scope + 1⟩

/-- SymbolTable::exit_scope.  Popping the base scope is a panic, modelled as
none.  The while loop pops from the back while the length exceeds the current
index, which is truncation to the first current_scope scopes. -/
def exitScope (st : SymbolTable) : Option SymbolTable :=
  if st.current_scope = 0 then none
  else some ⟨st.scopes.take st.current_scope, st.current_scope - 1⟩

/-- SymbolTable::declare_variable.  The Rust indexing
self.scopes[self.current_scope] panics when out of bounds; the reachable-state
invariant proved below shows the index is always valid, and the model reads
the indexed scope with getD. -/
def declareVariable (st : SymbolTable) (name : String) (varType : Ty) :
    Except String SymbolTable :=
  let scope := st.scopes.getD st.current_scope []
  if (scope.lookup name).isSome then
    Except.error "Trying to declare a duplicate variable"
  else
    Except.ok ⟨st.scopes.set st.current_scope
      ((name, ⟨name, varType, st.current_scope⟩) :: scope), st.current_scope⟩

/-- The while loop of SymbolTable::lookup_variable: walk from level down to 0,
stopping at the first scope containing the name. -/
def lookupFrom (scopes : List Scope) (level : Nat) (name : String) :
    Option Symbol :=
  match level with
  | 0 => (scopes.getD 0 []).lookup name
  | l + 1 =>
    if ((scopes.getD (l + 1) []).lookup name).isSome then
      (scopes.getD (l + 1) []).lookup name
    else lookupFrom scopes l name

/-- SymbolTable::lookup_variable. -/
def lookupVariable (st : SymbolTable) (name : String) : Option Symbol :=
  lookupFrom st.scopes st.current_scope name

/-- The SemanticErrorType enum.  SemanticError also carries a formatted message
string; no claim concerns the messages, so the model records only the type. -/
inductive SemanticErrorType : Type
  | UndefinedVariable
  | DuplicateDeclaration
  | TypeMismatch
  deriving DecidableEq, Repr

/-- The mutable state of SemanticAnalyzer: its symbol table and the error
accumulator. -/
structure AnalyzerState : Type where
  symbol_table : SymbolTable
  errors : List SemanticErrorType
  deriving DecidableEq, Repr

/-- SemanticAnalyzer::new. -/
def analyzerNew : AnalyzerState := ⟨symbolTableNew, []⟩

/-- SemanticAnalyzer::get_expression_type (it only reads the symbol table). -/
def getExpressionType (st : SymbolTable) : ASTNode → Option Ty
  | ASTNode.Number _ => some Ty.Integer
  | ASTNode.Identifier name => (lookupVariable st name).map (·.symbol_type)
  | ASTNode.BinaryOp _ _ _ => some Ty.Integer
  | _ => none

mutual

/-- SemanticAnalyzer::visit_node.  The panic in the Assignment arm (when
get_expression_type returns None) is modelled as none. -/
def visitNodeA (a : AnalyzerState) : ASTNode → Option AnalyzerState
  | ASTNode.Program statements => visitNodeAList a statements
  | ASTNode.Assignment v value =>
    match getExpressionType a.symbol_table value with
    | none => none
    | some varType =>
      match declareVariable a.symbol_table v varType with
      | Except.error _ =>
        some ⟨a.symbol_table, a.errors ++ [SemanticErrorType.DuplicateDeclaration]⟩
      | Except.ok tab => some ⟨tab, a.errors⟩
  | ASTNode.BinaryOp left _ right =>
    match visitNodeA a left with
    | none => none
    | some a1 =>
      match visitNodeA a1 right with
      | none => none
      | some a2 =>
        if getExpressionType a2.symbol_table left ≠
            getExpressionType a2.symbol_table right then
          some ⟨a2.symbol_table, a2.errors ++ [SemanticErrorType.TypeMismatch]⟩
        else some a2
  | ASTNode.Identifier name =>
    match lookupVariable a.symbol_table name with
    | none => some ⟨a.symbol_table, a.errors ++ [SemanticErrorType.UndefinedVariable]⟩
    | some _ => some a
  | ASTNode.Number _ => some a

/-- The for loop in the Program arm of SemanticAnalyzer::visit_node. -/
def visitNodeAList (a : AnalyzerState) : List ASTNode → Option AnalyzerState
  | [] => some a
  | n :: rest =>
    match visitNodeA a n with
    | none => none
    | some a1 => visitNodeAList a1 rest

end

/-- SemanticAnalyzer::analyze on a fresh analyzer: visit, then return Ok when
no diagnostics were recorded and Err with all of them otherwise.  The outer
Option is the Assignment-arm panic. -/
def analyze (ast : ASTNode) : Option (Except (List SemanticErrorType) Unit) :=
  match visitNodeA analyzerNew ast with
  | none => none
  | some a => some (if a.errors = [] then Except.ok () else Except.error a.errors)

/-- Kernel-computable addition on Value: the irreducible Rat.add cannot be
evaluated by decide, so the VM model uses this definition; vAdd_eq proves it
is exactly rational addition. -/
def vAdd (a b : Value) : Value := mkRat (a.num * b.den + b.num * a.den) (a.den * b.den)

/-- Kernel-computable subtraction on Value (see vAdd). -/
def vSub (a b : Value) : Value := mkRat (a.num * b.den - b.num * a.den) (a.den * b.den)

/-- Kernel-computable multiplication on Value (see vAdd). -/
def vMul (a b : Value) : Value := mkRat (a.num * b.num) (a.den * b.den)

/-- Kernel-computable division on Value (see vAdd); like rational division it
sends division by zero to 0, but the VM only divides after its zero check. -/
def vDiv (a b : Value) : Value := Rat.divInt (a.num * b.den) (a.den * b.num)

/-- Runtime errors of the VM: each arm is one of the panic sites in
src/vm.rs. -/
inductive VMError : Type
  | VariableNotInScope
  | VariableNotInStorage
  | StoreOnEmptyStack
  | PopTwoUnderflow
  | DivideByZero
  deriving DecidableEq, Repr

/-- The VM variable store (Rust HashMap from names to f64), as an association
list; insertion overwrites, keeping keys unique. -/
abbrev Storage : Type := List (String × Value)

/-- HashMap::insert into the store: overwrite any previous binding. -/
def storageInsert (k : String) (v : Value) (s : Storage) : Storage :=
  (k, v) :: s.filter (fun p => p.1 ≠ k)

/-- VM runtime state threaded by execute: operand stack (head is the top)
and variable store.  The instruction list and symbol table never change and
are passed as parameters instead. -/
structure VMState : Type where
  stack : List Value
  storage : Storage
  deriving DecidableEq, Repr

/-- VM::pop_two: n1 is popped first (the top), n2 second. -/
def popTwo (vm : VMState) : Except VMError (Value × Value × List Value) :=
  match vm.stack with
  | n1 :: n2 :: rest => Except.ok (n1, n2, rest)
  | _ => Except.error VMError.PopTwoUnderflow

/-- VM::evaluate_next_instruction, acting on the instruction the program
counter points at.  Note the Divide arm: the zero test reads n2, the
second-popped value, which is the left operand. -/
def evaluateInstruction (tab : SymbolTable) (vm : VMState) :
    Instruction → Except VMError VMState
  | Instruction.LoadConstant x => Except.ok ⟨x :: vm.stack, vm.storage⟩
  | Instruction.LoadVariable x =>
    if (lookupVariable tab x).isNone then Except.error VMError.VariableNotInScope
    else
      match vm.storage.lookup x with
      | some val => Except.ok ⟨val :: vm.stack, vm.storage⟩
      | none => Except.error VMError.VariableNotInStorage
  | Instruction.StoreVariable x =>
    match vm.stack with
    | val :: rest => Except.ok ⟨rest, storageInsert x val vm.storage⟩
    | [] => Except.error VMError.StoreOnEmptyStack
  | Instruction.Add =>
    match popTwo vm with
    | Except.ok (n1, n2, rest) => Except.ok ⟨vAdd n2 n1 :: rest, vm.storage⟩
    | Except.error e => Except.error e
  | Instruction.Subtract =>
    match popTwo vm with
    | Except.ok (n1, n2, rest) => Except.ok ⟨vSub n2 n1 :: rest, vm.storage⟩
    | Except.error e => Except.error e
  | Instruction.Multiply =>
    match popTwo vm with
    | Except.ok (n1, n2, rest) => Except.ok ⟨vMul n2 n1 :: rest, vm.storage⟩
    | Except.error e => Except.error e
  | Instruction.Divide =>
    match popTwo vm with
    | Except.ok (n1, n2, rest) =>
      if n2 = 0 then Except.error VMError.DivideByZero
      else Except.ok ⟨vDiv n2 n1 :: rest, vm.storage⟩
    | Except.error e => Except.error e
  | Instruction.Stop => Except.ok vm

/-- The execute loop.  The Rust loop advances a program counter by one after
every instruction and no instruction modifies it, so reading
instructions[pc] and incrementing is the same as folding over the list. -/
def runInstructions (tab : SymbolTable) :
    List Instruction → VMState → Except VMError VMState
  | [], vm => Except.ok vm
  | i :: rest, vm =>
    match evaluateInstruction tab vm i with
    | Except.ok vm1 => runInstructions tab rest vm1
    | Except.error e => Except.error e

/-- VM::execute: reset storage, program counter and stack, run the loop, and
return the storage. -/
def execute (tab : SymbolTable) (instructions : List Instruction) :
    Except VMError Storage :=
  match runInstructions tab instructions ⟨[], []⟩ with
  | Except.ok vm => Except.ok vm.storage
  | Except.error e => Except.error e

/-- Errors of the whole pipeline: a parse error, the analyzer panic, or a VM
fault. -/
inductive PipelineError : Type
  | ParseError (msg : String)
  | AnalyzerFault
  | VMFault (e : VMError)
  deriving DecidableEq, Repr

/-- The pipeline wiring of the spec, section 2: lexer into parser, the
semantic analyzer populating the symbol table as a side channel, the compiler
consuming the same AST, and the VM executing the instructions against the
analyzer's symbol table. -/
def runPipeline (input : String) : Except PipelineError Storage :=
  match parseProgram input with
  | Except.error e => Except.error (PipelineError.ParseError e)
  | Except.ok ast =>
    match visitNodeA analyzerNew ast with
    | none => Except.error PipelineError.AnalyzerFault
    | some a =>
      match execute a.symbol_table (generateInstructions ast) with
      | Except.error e => Except.error (PipelineError.VMFault e)
      | Except.ok storage => Except.ok storage

/-- Read one variable out of a pipeline result. -/
def getVar (r : Except PipelineError Storage) (name : String) : Option Value :=
  match r with
  | Except.ok s => s.lookup name
  | Except.error _ => none

/-- An ASTNode of the expression fragment (Number, Identifier, BinaryOp), the
nodes that compile to pure stack code. -/
def isExpr : ASTNode → Bool
  | ASTNode.Number _ => true
  | ASTNode.Identifier _ => true
  | ASTNode.BinaryOp l _ r => isExpr l && isExpr r
  | _ => false

/-- left op right, with rational arithmetic. -/
def applyBinaryOp : BinaryOperator → Value → Value → Value
  | BinaryOperator.Add, lhs, rhs => lhs + rhs
  | BinaryOperator.Subtract, lhs, rhs => lhs - rhs
  | BinaryOperator.Multiply, lhs, rhs => lhs * rhs
  | BinaryOperator.Divide, lhs, rhs => lhs / rhs

/-- The value the VM computes for a compiled expression, with none for each
VM fault: an identifier missing from the symbol table or the storage, and a
Divide whose LEFT operand is zero (the check the Rust code actually performs,
see evaluateInstruction). -/
def evalExpr (tab : SymbolTable) (storage : Storage) : ASTNode → Option Value
  | ASTNode.Number x => some x
  | ASTNode.Identifier n =>
    if (lookupVariable tab n).isNone then none
    else storage.lookup n
  | ASTNode.BinaryOp l op r =>
    match evalExpr tab storage l, evalExpr tab storage r with
    | some lv, some rv =>
      if op = BinaryOperator.Divide ∧ lv = 0 then none
      else some (applyBinaryOp op lv rv)
    | _, _ => none
  | _ => none

/-- The variable a StoreVariable instruction writes, if any. -/
def storeTarget : Instruction → Option String
  | Instruction.StoreVariable n => some n
  | _ => none

mutual

/-- The Assignment targets of an AST in traversal (statement) order. -/
def assignmentTargets : ASTNode → List String
  | ASTNode.Number _ => []
  | ASTNode.Identifier _ => []
  | ASTNode.BinaryOp l _ r => assignmentTargets l ++ assignmentTargets r
  | ASTNode.Assignment v value => assignmentTargets value ++ [v]
  | ASTNode.Program statements => assignmentTargetsList statements

/-- assignmentTargets over a statement list. -/
def assignmentTargetsList : List ASTNode → List String
  | [] => []
  | n :: rest => assignmentTargets n ++ assignmentTargetsList rest

end

/-- The public mutating operations of SymbolTable, for stating the
reachable-state invariant. -/
inductive SymbolTableOp : Type
  | enter
  | exitOp
  | declare (name : String) (varType : Ty)
  | lookup (name : String)
  deriving DecidableEq, Repr

/-- One SymbolTable call: enter_scope and a successful declare mutate,
a duplicate declare returns Err leaving the table unchanged, lookup_variable
reads only, and exit_scope at the base scope is the modelled panic. -/
def applySymbolTableOp (st : SymbolTable) : SymbolTableOp → Option SymbolTable
  | SymbolTableOp.enter => some (enterScope st)
  | SymbolTableOp.exitOp => exitScope st
  | SymbolTableOp.declare n ty =>
    some (match declareVariable st n ty with
      | Except.ok st1 => st1
      | Except.error _ => st)
  | SymbolTableOp.lookup _ => some st

/-- Run a call sequence from a given table; none once any call panics. -/
def runSymbolTableOps : List SymbolTableOp → SymbolTable → Option SymbolTable
  | [], st => some st
  | op :: rest, st =>
    match applySymbolTableOp st op with
    | some st1 => runSymbolTableOps rest st1
    | none => none

/-- vAdd is rational addition. -/
theorem vAdd_eq (a b : Value) : vAdd a b = a + b := (Rat.add_def' a b).symm

/-- vSub is rational subtraction. -/
theorem vSub_eq (a b : Value) : vSub a b = a - b := (Rat.sub_def' a b).symm

/-- vMul is rational multiplication. -/
theorem vMul_eq (a b : Value) : vMul a b = a * b := by
  rw [vMul, Rat.mul_def, Rat.normalize_eq_mkRat]

/-- vDiv is rational division. -/
theorem vDiv_eq (a b : Value) : vDiv a b = a / b := by
  rcases eq_or_ne b.num 0 with h | h
  · have hb : b = 0 := by rwa [Rat.num_eq_zero] at h
    subst hb
    simp [vDiv]
  · have ha : (a.den : ℚ) ≠ 0 := by
      exact_mod_cast a.den_nz
    have hbd : (b.den : ℚ) ≠ 0 := by
      exact_mod_cast b.den_nz
    have hbn : (b.num : ℚ) ≠ 0 := by
      exact_mod_cast h
    rw [vDiv, Rat.divInt_eq_div]
    push_cast
    conv_rhs => rw [← Rat.num_div_den a, ← Rat.num_div_den b]
    field_simp

/-- Running a concatenation of instruction lists runs the pieces in order. -/
theorem runInstructions_append (tab : SymbolTable) (l1 l2 : List Instruction)
    (vm : VMState) :
    runInstructions tab (l1 ++ l2) vm =
      match runInstructions tab l1 vm with
      | Except.ok vm1 => runInstructions tab l2 vm1
      | Except.error e => Except.error e := by
  induction l1 generalizing vm with
  | nil => rfl
  | cons i rest ih =>
    simp only [List.cons_append, runInstructions]
    cases evaluateInstruction tab vm i with
    | ok vm1 => exact ih vm1
    | error e => rfl

/-- Running a concatenation whose first piece succeeds continues with the
second piece from the reached state. -/
theorem runInstructions_append_ok (tab : SymbolTable) (l1 l2 : List Instruction)
    (vm vm1 : VMState) (h : runInstructions tab l1 vm = Except.ok vm1) :
    runInstructions tab (l1 ++ l2) vm = runInstructions tab l2 vm1 := by
  rw [runInstructions_append, h]

/-- Compiler correctness on the expression fragment: if the VM value of an
expression is v, running its compiled code just pushes v (the storage is
untouched: expression code contains no StoreVariable). -/
theorem visitNode_expr_correct : ∀ (e : ASTNode), isExpr e = true →
    ∀ (tab : SymbolTable) (storage : Storage) (stack : List Value) (v : Value),
    evalExpr tab storage e = some v →
    runInstructions tab (visitNode e) ⟨stack, storage⟩ =
      Except.ok ⟨v :: stack, storage⟩
  | ASTNode.Number x, _, tab, storage, stack, v, hv => by
    simp only [evalExpr, Option.some.injEq] at hv
    subst hv
    rfl
  | ASTNode.Identifier n, _, tab, storage, stack, v, hv => by
    simp only [evalExpr] at hv
    by_cases h : (lookupVariable tab n).isNone
    · simp [h] at hv
    · simp [h] at hv
      simp [visitNode, runInstructions, evaluateInstruction, h, hv]
  | ASTNode.BinaryOp l op r, he, tab, storage, stack, v, hv => by
    simp only [isExpr, Bool.and_eq_true] at he
    simp only [evalExpr] at hv
    cases hl : evalExpr tab storage l with
    | none => rw [hl] at hv; cases hv
    | some lv =>
      cases hr : evalExpr tab storage r with
      | none => rw [hl, hr] at hv; cases hv
      | some rv =>
        rw [hl, hr] at hv
        have ihl := visitNode_expr_correct l he.1 tab storage stack lv hl
        have ihr := visitNode_expr_correct r he.2 tab storage (lv :: stack) rv hr
        simp only [visitNode, List.append_assoc]
        rw [runInstructions_append_ok tab _ _ _ _ ihl,
          runInstructions_append_ok tab _ _ _ _ ihr]
        by_cases hz : op = BinaryOperator.Divide ∧ lv = 0
        · simp [hz] at hv
        · simp only [hz, if_false] at hv
          cases hv
          cases op with
          | Add =>
            simp [runInstructions, evaluateInstruction, binaryOpToInstruction,
              popTwo, applyBinaryOp, vAdd_eq]
          | Subtract =>
            simp [runInstructions, evaluateInstruction, binaryOpToInstruction,
              popTwo, applyBinaryOp, vSub_eq]
          | Multiply =>
            simp [runInstructions, evaluateInstruction, binaryOpToInstruction,
              popTwo, applyBinaryOp, vMul_eq]
          | Divide =>
            have hlz : ¬lv = 0 := fun h0 => hz ⟨rfl, h0⟩
            simp [runInstructions, evaluateInstruction, binaryOpToInstruction,
              popTwo, applyBinaryOp, vDiv_eq, hlz]

mutual

/-- visit_node never emits Stop. -/
theorem visitNode_no_stop : ∀ (e : ASTNode), Instruction.Stop ∉ visitNode e
  | ASTNode.Number x => by simp [visitNode]
  | ASTNode.Identifier n => by simp [visitNode]
  | ASTNode.BinaryOp l op r => by
    simp only [visitNode, List.mem_append, List.mem_singleton]
    push_neg
    exact ⟨⟨visitNode_no_stop l, visitNode_no_stop r⟩, by cases op <;> simp [binaryOpToInstruction]⟩
  | ASTNode.Assignment v value => by
    simp only [visitNode, List.mem_append, List.mem_singleton]
    push_neg
    exact ⟨visitNode_no_stop value, by simp⟩
  | ASTNode.Program statements => visitNodeList_no_stop statements

/-- The statement loop never emits Stop either. -/
theorem visitNodeList_no_stop : ∀ (l : List ASTNode),
    Instruction.Stop ∉ visitNodeList l
  | [] => by simp [visitNodeList]
  | n :: rest => by
    simp only [visitNodeList, List.mem_append]
    push_neg
    exact ⟨visitNode_no_stop n, visitNodeList_no_stop rest⟩

end

mutual

/-- The StoreVariable targets of the emitted code are exactly the Assignment
targets, in traversal order. -/
theorem visitNode_storeTargets : ∀ (e : ASTNode),
    (visitNode e).filterMap storeTarget = assignmentTargets e
  | ASTNode.Number x => by simp [visitNode, assignmentTargets, storeTarget]
  | ASTNode.Identifier n => by simp [visitNode, assignmentTargets, storeTarget]
  | ASTNode.BinaryOp l op r => by
    simp only [visitNode, assignmentTargets, List.filterMap_append,
      visitNode_storeTargets l, visitNode_storeTargets r]
    cases op <;> simp [binaryOpToInstruction, storeTarget]
  | ASTNode.Assignment v value => by
    simp [visitNode, assignmentTargets, List.filterMap_append,
      visitNode_storeTargets value, storeTarget]
  | ASTNode.Program statements => visitNodeList_storeTargets statements

/-- visitNode_storeTargets for the statement loop. -/
theorem visitNodeList_storeTargets : ∀ (l : List ASTNode),
    (visitNodeList l).filterMap storeTarget = assignmentTargetsList l
  | [] => by simp [visitNodeList, assignmentTargetsList]
  | n :: rest => by
    simp [visitNodeList, assignmentTargetsList, List.filterMap_append,
      visitNode_storeTargets n, visitNodeList_storeTargets rest]

end

/-- A successful declare_variable only replaces one scope in place: the scope
list length and the current index are unchanged. -/
theorem declareVariable_inv (st st1 : SymbolTable) (n : String) (ty : Ty)
    (h : declareVariable st n ty = Except.ok st1) :
    st1.scopes.length = st.scopes.length ∧
      st1.current_scope = st.current_scope := by
  rw [declareVariable] at h
  split at h
  · cases h
  · injection h with h
    subst h
    simp [List.length_set]

/-- One SymbolTable call preserves the index invariant. -/
theorem applySymbolTableOp_inv (st st1 : SymbolTable) (op : SymbolTableOp)
    (hinv : st.current_scope < st.scopes.length)
    (happ : applySymbolTableOp st op = some st1) :
    st1.current_scope < st1.scopes.length := by
  cases op with
  | enter =>
    simp only [applySymbolTableOp, Option.some.injEq] at happ
    subst happ
    simp only [enterScope, padScopes, List.length_append, List.length_replicate]
    omega
  | exitOp =>
    simp only [applySymbolTableOp, exitScope] at happ
    by_cases h0 : st.current_scope = 0
    · simp [h0] at happ
    · simp only [h0, if_false, Option.some.injEq] at happ
      subst happ
      simp only [List.length_take]
      omega
  | declare n ty =>
    simp only [applySymbolTableOp, Option.some.injEq] at happ
    subst happ
    cases hd : declareVariable st n ty with
    | ok st2 =>
      simp only [hd]
      have h2 := declareVariable_inv st st2 n ty hd
      omega
    | error e =>
      simp only [hd]
      exact hinv
  | lookup n =>
    simp only [applySymbolTableOp, Option.some.injEq] at happ
    subst happ
    exact hinv

/-- Any call sequence from a table satisfying the index invariant ends (when
it does not panic) in a table satisfying it. -/
theorem runSymbolTableOps_inv : ∀ (ops : List SymbolTableOp) (st st1 : SymbolTable),
    st.current_scope < st.scopes.length →
    runSymbolTableOps ops st = some st1 →
    st1.current_scope < st1.scopes.length
  | [], st, st1, hinv, hrun => by
    simp only [runSymbolTableOps, Option.some.injEq] at hrun
    subst hrun
    exact hinv
  | op :: rest, st, st1, hinv, hrun => by
    simp only [runSymbolTableOps] at hrun
    cases happ : applySymbolTableOp st op with
    | none => rw [happ] at hrun; cases hrun
    | some st2 =>
      rw [happ] at hrun
      exact runSymbolTableOps_inv rest st2 st1
        (applySymbolTableOp_inv st st2 op hinv happ) hrun

/-- Visiting a list of bare identifier statements with a fresh symbol table
records one UndefinedVariable per statement and completes. -/
theorem visitNodeAList_identifiers (ns : List String)
    (errs : List SemanticErrorType) :
    visitNodeAList ⟨symbolTableNew, errs⟩ (ns.map ASTNode.Identifier) =
      some ⟨symbolTableNew,
        errs ++ List.replicate ns.length SemanticErrorType.UndefinedVariable⟩ := by
  induction ns generalizing errs with
  | nil => simp [visitNodeAList]
  | cons n rest ih =>
    have hlook : lookupVariable symbolTableNew n = none := rfl
    simp only [List.map_cons, visitNodeAList, visitNodeA, hlook]
    rw [ih (errs ++ [SemanticErrorType.UndefinedVariable])]
    simp [List.replicate_succ]

/-- C1: the claim states that a Divide whose divisor (first-popped right
operand) is 0.0 is a fatal fault and that the compiled program x = 1 / 0;
faults.  The code does not: its zero test reads n2, the SECOND-popped (left)
operand, so with divisor 0 and dividend 1 no fault is raised and a quotient is
pushed and stored (f64 stores infinity; the claim is contradicted either way).
This theorem evaluates the code at the failing input: both the single Divide
step with divisor 0 and the whole pipeline on x = 1 / 0; complete without a
fault. -/
theorem c1_division_by_zero_divisor_not_trapped :
    (evaluateInstruction symbolTableNew ⟨[0, 1], []⟩ Instruction.Divide).isOk = true ∧
      (runPipeline "x = 1 / 0;").isOk = true :=
  ⟨by rfl, by rfl⟩

/-- C2 counterexample: the program x = y; references y, which is never
assigned, yet analysis does not record an UndefinedVariable diagnostic and
complete - it faults (the Assignment arm panics when get_expression_type of a
bare undeclared identifier returns None). -/
theorem c2_counterexample_assignment_rhs_faults :
    analyze (ASTNode.Program [ASTNode.Assignment "x" (ASTNode.Identifier "y")]) =
      none := by
  rfl

/-- C2 amended: every undeclared identifier reference that the traversal
actually visits as a node (here: any sequence of statement-level identifier
references) records one UndefinedVariable diagnostic, analysis never aborts,
and the full accumulated list is returned.  (Identifiers inside an Assignment
right-hand side are never visited: a bare one is a fatal fault, see the
counterexample, and one under a BinaryOp is silently accepted, see C10.) -/
theorem c2_visited_undefined_identifiers_all_reported (ns : List String) :
    analyze (ASTNode.Program (ns.map ASTNode.Identifier)) =
      some (if ns = [] then Except.ok ()
        else Except.error
          (List.replicate ns.length SemanticErrorType.UndefinedVariable)) := by
  rw [analyze]
  have h := visitNodeAList_identifiers ns []
  rw [show visitNodeA analyzerNew (ASTNode.Program (ns.map ASTNode.Identifier)) =
      visitNodeAList ⟨symbolTableNew, []⟩ (ns.map ASTNode.Identifier) from rfl, h]
  cases ns with
  | nil => rfl
  | cons n rest => simp [List.replicate_succ]

/-- C3: the full pipeline (lex, parse, compile, execute) on the three
statements x = (10 + 5 * 2) / 4; y = x + 10; z = y - y / 5; ends with a store
mapping x to 5, y to 15 and z to 12. -/
theorem c3_end_to_end_pipeline :
    getVar (runPipeline "x = (10 + 5 * 2) / 4;\ny = x + 10;\nz = y - y / 5;") "x" =
        some 5 ∧
      getVar (runPipeline "x = (10 + 5 * 2) / 4;\ny = x + 10;\nz = y - y / 5;") "y" =
        some 15 ∧
      getVar (runPipeline "x = (10 + 5 * 2) / 4;\ny = x + 10;\nz = y - y / 5;") "z" =
        some 12 :=
  ⟨by decide, by decide, by decide⟩

/-- C4: each arithmetic instruction pops the right operand first (stack top)
and the left operand second and pushes left op right (for Divide, whenever the
VM's zero check passes, i.e. the left operand is nonzero); and since the
compiler emits left before right, the compiled code of any expression
BinaryOp left op right pushes left op right onto the stack. -/
theorem c4_operand_order_and_compiled_binary_op :
    (∀ (tab : SymbolTable) (g : Storage) (rhs lhs : Value) (rest : List Value),
      evaluateInstruction tab ⟨rhs :: lhs :: rest, g⟩ Instruction.Add =
          Except.ok ⟨(lhs + rhs) :: rest, g⟩ ∧
        evaluateInstruction tab ⟨rhs :: lhs :: rest, g⟩ Instruction.Subtract =
          Except.ok ⟨(lhs - rhs) :: rest, g⟩ ∧
        evaluateInstruction tab ⟨rhs :: lhs :: rest, g⟩ Instruction.Multiply =
          Except.ok ⟨(lhs * rhs) :: rest, g⟩ ∧
        (lhs ≠ 0 →
          evaluateInstruction tab ⟨rhs :: lhs :: rest, g⟩ Instruction.Divide =
            Except.ok ⟨(lhs / rhs) :: rest, g⟩)) ∧
    (∀ (l : ASTNode) (op : BinaryOperator) (r : ASTNode) (tab : SymbolTable)
      (storage : Storage) (stack : List Value) (lv rv : Value),
      isExpr l = true → isExpr r = true →
      evalExpr tab storage l = some lv → evalExpr tab storage r = some rv →
      (op = BinaryOperator.Divide → lv ≠ 0) →
      runInstructions tab (visitNode (ASTNode.BinaryOp l op r)) ⟨stack, storage⟩ =
        Except.ok ⟨applyBinaryOp op lv rv :: stack, storage⟩) := by
  constructor
  · intro tab g rhs lhs rest
    refine ⟨?_, ?_, ?_, fun h => ?_⟩
    · simp [evaluateInstruction, popTwo, vAdd_eq]
    · simp [evaluateInstruction, popTwo, vSub_eq]
    · simp [evaluateInstruction, popTwo, vMul_eq]
    · simp [evaluateInstruction, popTwo, vDiv_eq, h]
  · intro l op r tab storage stack lv rv hel her hl hr hdiv
    refine visitNode_expr_correct _ ?_ tab storage stack _ ?_
    · simp [isExpr, hel, her]
    · simp only [evalExpr, hl, hr]
      rw [if_neg]
      rintro ⟨h1, h2⟩
      exact hdiv h1 h2

/-- C4 witness: the Divide step on stack top 4 over 10 pushes 10 / 4, and the
compiled code of BinaryOp (Number 10) Subtract (Number 4) pushes 10 - 4. -/
theorem c4_operand_order_witness :
    evaluateInstruction symbolTableNew ⟨[4, 10], []⟩ Instruction.Divide =
        Except.ok ⟨[(10 : Value) / 4], []⟩ ∧
      runInstructions symbolTableNew
          (visitNode (ASTNode.BinaryOp (ASTNode.Number 10)
            BinaryOperator.Subtract (ASTNode.Number 4))) ⟨[], []⟩ =
        Except.ok ⟨[applyBinaryOp BinaryOperator.Subtract 10 4], []⟩ :=
  ⟨(c4_operand_order_and_compiled_binary_op.1 symbolTableNew [] 4 10 []).2.2.2
      (by decide),
    c4_operand_order_and_compiled_binary_op.2 (ASTNode.Number 10)
      BinaryOperator.Subtract (ASTNode.Number 4) symbolTableNew [] [] 10 4
      rfl rfl rfl rfl (by decide)⟩

/-- C5: subtraction chains group to the left (the parse tree of
x = 10 - 5 - 2; is (10 - 5) - 2 and the program stores 3), multiplication
binds tighter than addition (x = 2 + 3 * 4; stores 14), and parentheses
override precedence (x = (2 + 3) * 4; stores 20). -/
theorem c5_associativity_precedence_parentheses :
    parseProgram "x = 10 - 5 - 2;" = Except.ok (ASTNode.Program
        [ASTNode.Assignment "x" (ASTNode.BinaryOp
          (ASTNode.BinaryOp (ASTNode.Number 10) BinaryOperator.Subtract
            (ASTNode.Number 5))
          BinaryOperator.Subtract (ASTNode.Number 2))]) ∧
      getVar (runPipeline "x = 10 - 5 - 2;") "x" = some 3 ∧
      getVar (runPipeline "x = 2 + 3 * 4;") "x" = some 14 ∧
      getVar (runPipeline "x = (2 + 3) * 4;") "x" = some 20 :=
  ⟨by rfl, by decide, by decide, by decide⟩

/-- C6: when the operand parse fails after at least one operand of a term or
factor chain has been parsed (lookahead was a +,-,*,/ operator), the parser
returns the partially built left expression with an ok result instead of
propagating the error, in the state the failed operand parse left behind; in
particular x = 1 + ; parses successfully as the assignment of 1 to x. -/
theorem c6_mid_chain_failure_truncates :
    (∀ (fuel : Nat) (left : ASTNode) (s : PState) (e : String) (s2 : PState),
      (s.cur = Token.Plus ∨ s.cur = Token.Minus) →
      parseFactor fuel (advanceP s) = (Except.error e, s2) →
      parseTermGo (fuel + 1) left s = (Except.ok left, s2)) ∧
    (∀ (fuel : Nat) (left : ASTNode) (s : PState) (e : String) (s2 : PState),
      (s.cur = Token.Multiply ∨ s.cur = Token.Divide) →
      parsePrimary fuel (advanceP s) = (Except.error e, s2) →
      parseFactorGo (fuel + 1) left s = (Except.ok left, s2)) ∧
    parseProgram "x = 1 + ;" =
      Except.ok (ASTNode.Program [ASTNode.Assignment "x" (ASTNode.Number 1)]) := by
  refine ⟨?_, ?_, by rfl⟩
  · intro fuel left s e s2 hcur hfail
    rcases hcur with h | h <;>
      simp [parseTermGo, expectOperator, h, hfail]
  · intro fuel left s e s2 hcur hfail
    rcases hcur with h | h <;>
      simp [parseFactorGo, expectOperator, h, hfail]

/-- C6 witness: with lookahead + followed by ;, the term loop returns the
already parsed left operand (Number 1) and succeeds. -/
theorem c6_mid_chain_failure_witness :
    parseTermGo 6 (ASTNode.Number 1) ⟨[';'], Token.Plus⟩ =
      (Except.ok (ASTNode.Number 1), ⟨[], Token.Semi⟩) :=
  c6_mid_chain_failure_truncates.1 5 (ASTNode.Number 1) ⟨[';'], Token.Plus⟩
    "Token was neither Number nor Identifier!" ⟨[], Token.Semi⟩
    (Or.inl rfl) (by rfl)

/-- C7: for every AST, generate_instructions (which has no error path) returns
a sequence whose last element is Stop, containing Stop exactly once, and whose
StoreVariable instructions are exactly one per Assignment node in traversal
(statement) order. -/
theorem c7_generated_code_shape (ast : ASTNode) :
    (generateInstructions ast).getLast? = some Instruction.Stop ∧
      (generateInstructions ast).count Instruction.Stop = 1 ∧
      (generateInstructions ast).filterMap storeTarget = assignmentTargets ast := by
  refine ⟨?_, ?_, ?_⟩
  · simp [generateInstructions, List.getLast?_concat]
  · rw [generateInstructions, List.count_append,
      List.count_eq_zero.mpr (visitNode_no_stop ast)]
    simp [List.count_singleton]
  · simp [generateInstructions, List.filterMap_append,
      visitNode_storeTargets ast, storeTarget]

/-- C8: in every symbol-table state reachable from new() by enter_scope,
exit_scope, declare_variable and lookup_variable calls, scope 0 exists (the
scope list is nonempty) and current_scope is a valid index; and exit_scope on
a state whose current scope is the base scope faults instead of popping. -/
theorem c8_scope_invariant :
    (∀ (ops : List SymbolTableOp) (st : SymbolTable),
      runSymbolTableOps ops symbolTableNew = some st →
      0 < st.scopes.length ∧ st.current_scope < st.scopes.length) ∧
    (∀ st : SymbolTable, st.current_scope = 0 → exitScope st = none) := by
  constructor
  · intro ops st h
    have hinv := runSymbolTableOps_inv ops symbolTableNew st (by simp [symbolTableNew]) h
    exact ⟨Nat.lt_of_le_of_lt (Nat.zero_le _) hinv, hinv⟩
  · intro st h
    simp [exitScope, h]

/-- C8 witness: after enter, declare, exit the table is back to one scope with
index 0, satisfying the invariant, and exit_scope on it faults. -/
theorem c8_scope_invariant_witness :
    (0 < (SymbolTable.mk [[]] 0).scopes.length ∧
      (SymbolTable.mk [[]] 0).current_scope < (SymbolTable.mk [[]] 0).scopes.length) ∧
      exitScope (SymbolTable.mk [[]] 0) = none :=
  ⟨c8_scope_invariant.1
      [SymbolTableOp.enter, SymbolTableOp.declare "x" Ty.Integer,
        SymbolTableOp.exitOp]
      (SymbolTable.mk [[]] 0) (by rfl),
    c8_scope_invariant.2 (SymbolTable.mk [[]] 0) (by rfl)⟩

/-- C9: a Divide whose second-popped operand (the left operand, the dividend)
is 0 raises the division-by-zero fault whatever the divisor is; in particular
the compiled program x = 0 / 5; faults although its divisor 5 is nonzero. -/
theorem c9_zero_dividend_faults :
    (∀ (tab : SymbolTable) (g : Storage) (rhs : Value) (rest : List Value),
      evaluateInstruction tab ⟨rhs :: 0 :: rest, g⟩ Instruction.Divide =
        Except.error VMError.DivideByZero) ∧
    runPipeline "x = 0 / 5;" =
      Except.error (PipelineError.VMFault VMError.DivideByZero) :=
  ⟨fun tab g rhs rest => rfl, by rfl⟩

/-- C10: the analyzer handles an Assignment whose value is a BinaryOp purely
through get_expression_type, which returns Integer without visiting the
sub-tree, so the result does not depend on the operands at all (only a
DuplicateDeclaration can be added); in particular analyzing x = y + 1; with y
never declared succeeds with no diagnostics. -/
theorem c10_assignment_rhs_not_visited :
    (∀ (a : AnalyzerState) (v : String) (l : ASTNode) (op : BinaryOperator)
      (r : ASTNode),
      visitNodeA a (ASTNode.Assignment v (ASTNode.BinaryOp l op r)) =
        match declareVariable a.symbol_table v Ty.Integer with
        | Except.error _ =>
          some ⟨a.symbol_table, a.errors ++ [SemanticErrorType.DuplicateDeclaration]⟩
        | Except.ok tab => some ⟨tab, a.errors⟩) ∧
    analyze (ASTNode.Program [ASTNode.Assignment "x"
        (ASTNode.BinaryOp (ASTNode.Identifier "y") BinaryOperator.Add
          (ASTNode.Number 1))]) = some (Except.ok ()) :=
  ⟨fun a v l op r => rfl, by rfl⟩

end MicroLang
